import Mathlib

/-!
Verification development for the FanboxArchive ingestion pipeline.

The Rust source is shallowly embedded: pure functions become Lean
functions, fallible or panicking code returns `Option` (with `none`
modelling a panic/abort such as `.unwrap()` on a missing key or
`unimplemented!()`), hash maps become association lists, and the
stateful pipeline stages become explicit state-passing functions.
Machine integers (`u32`, `i64`, `usize`) are modelled as `Nat`/`Int`;
none of the embedded code paths can overflow at the modelled widths in
a way the claims depend on.
-/

namespace FanboxArchive

/-! ## Data model (from `src/post.rs` type declarations and the uses in
`src/post/body.rs`; `FileMetaId` is an opaque store identifier, modelled
as `Nat`). -/

/-- Archive-neutral content item (`post_archiver::Content`). -/
inductive Content where
  | text (s : String)
  | file (id : Nat)
deriving DecidableEq, Repr

/-- Inline style span: kind, byte offset and length into the original text. -/
structure PostBlockStyle where
  ty : String
  offset : Nat
  length : Nat
deriving DecidableEq, Repr

/-- One structural block of a rich-text post body. -/
inductive PostBlock where
  | p (text : String) (styles : Option (List PostBlockStyle))
  | header (text : String) (styles : Option (List PostBlockStyle))
  | image (image_id : String)
  | file (file_id : String)
  | embed (embed_id : String)
  | urlEmbed (url_embed_id : String)
  | video (video_id : String)
deriving DecidableEq, Repr

/-- An embedded video reference. -/
structure PostVideo where
  service_provider : String
  video_id : String
deriving DecidableEq, Repr

/-- An embedded provider reference. -/
structure PostEmbed where
  id : String
  service_provider : String
  content_id : String
deriving DecidableEq, Repr

/-- Post listing entry (fields used by the filtering and pipeline stages). -/
structure PostListItem where
  id : String
  title : String
  fee_required : Nat
  published_datetime : Int
  updated_datetime : Int
  tags : List String
  is_restricted : Bool
  comment_count : Nat
  creator_id : String
deriving DecidableEq, Repr

/-- Creator profile data used by the `fanbox.creator` url-embed kind. -/
structure CreatorProfile where
  name : String
  creator_id : String
deriving DecidableEq, Repr

/-- URL-embed payload (`PostTextEmbed` in the source). -/
inductive PostTextEmbed where
  | html (id : String) (htmlBody : String)
  | htmlCard (id : String) (htmlBody : String)
  | fanboxPost (id : String) (post_info : PostListItem)
  | fanboxCreator (id : String) (profile : CreatorProfile)
  | default (id : String) (url : String) (host : String)
deriving DecidableEq, Repr

/-- Side-table keyed by reference id: `BTreeMap<String, _>` as an
association list. -/
abbrev SideTable (α : Type) := List (String × α)

/-- Image record of a post body. -/
structure PostImage where
  id : String
  extension : String
  original_url : String
deriving DecidableEq, Repr

/-- File record of a post body. -/
structure PostFile where
  id : String
  name : String
  extension : String
  url : String
deriving DecidableEq, Repr

/-- The rich-text document: flat text, ordered block sequence and
id-keyed side tables. -/
structure PostBody where
  text : Option String
  blocks : Option (List PostBlock)
  images : Option (List PostImage)
  videos : Option (List PostVideo)
  files : Option (List PostFile)
  image_map : Option (SideTable PostImage)
  file_map : Option (SideTable PostFile)
  embed_map : Option (SideTable PostEmbed)
  url_embed_map : Option (SideTable PostTextEmbed)

/-- `get_source_link` from `src/post/mod.rs`. -/
def get_source_link (creator_id : String) (post_id : String) : String :=
  "https://" ++ creator_id ++ ".fanbox.cc/posts/" ++ post_id

/-! ## Style-span application (`PostBlock::style_text`, `src/post/body.rs`
lines 82-114).

The Rust code sorts the spans by offset (stable ascending), pops them
from the end (so they are processed from the highest offset down), and
builds an insertion map `usize -> String`: the opening marker is
appended at `offset`, the closing marker is prepended at
`offset + length`.  It then re-emits the text character by character,
flushing the insertion at each index before the character itself.  The
insertion map is modelled as a total function defaulting to `""`
(absence of a key and an empty entry emit the same output). -/

/-- Stable ascending insertion sort by `offset`, mirroring
`styles.sort_by(offset)` (Rust's `sort_by` is stable). -/
def insertByOffset (st : PostBlockStyle) : List PostBlockStyle → List PostBlockStyle
  | [] => [st]
  | y :: ys => if st.offset ≤ y.offset then st :: y :: ys else y :: insertByOffset st ys

/-- Sorts spans by offset, keeping the original order of equal offsets. -/
def sortByOffset : List PostBlockStyle → List PostBlockStyle
  | [] => []
  | st :: rest => insertByOffset st (sortByOffset rest)

/-- One iteration of the `while let Some(style) = styles.pop()` loop:
register the opening and closing markers of a span in the insertion map.
An unknown style kind hits `unimplemented!()`, modelled as `none`. -/
def applyStyle (m : Nat → String) (st : PostBlockStyle) : Option (Nat → String) :=
  if st.ty = "bold" then
    let m1 : Nat → String := fun k => if k = st.offset then m k ++ "**" else m k
    let m2 : Nat → String := fun k => if k = st.offset + st.length then "**" ++ m1 k else m1 k
    some m2
  else
    none

/-- Folds `applyStyle` over the spans in pop order (highest offset first). -/
def buildInsertMap (m : Nat → String) : List PostBlockStyle → Option (Nat → String)
  | [] => some m
  | st :: rest =>
    match applyStyle m st with
    | none => none
    | some m1 => buildInsertMap m1 rest

/-- The emission loop over `text.chars().enumerate()`: at each character
index the pending insertion is flushed, then the character is pushed.
Note the loop never reaches index `text.length`, so an insertion stored
there is silently dropped. -/
def emitChars (m : Nat → String) : Nat → List Char → String
  | _, [] => ""
  | i, c :: cs => m i ++ c.toString ++ emitChars m (i + 1) cs

/-- `PostBlock::style_text`: `none` models the `unimplemented!()` panic on
an unknown style kind. -/
def PostBlock.style_text (text : String) (styles : Option (List PostBlockStyle)) :
    Option String :=
  match styles with
  | none => some text
  | some styles =>
    match buildInsertMap (fun _ => "") (sortByOffset styles).reverse with
    | none => none
    | some m => some (emitChars m 0 text.toList)

/-- Number of asterisk characters in a string; each emitted bold marker
contributes two, and a balanced open/close pair contributes four. -/
def asteriskCount (s : String) : Nat := s.toList.count '*'

/-! ## Checkpoint cache (`CachedCreators`, `src/context.rs` lines 49-68). -/

/-- Per-creator checkpoint: highest processed update timestamp (`i64`)
and highest seen fee tier (`u32`). -/
structure CachedCreators where
  updated : Int
  fee : Nat
deriving DecidableEq, Repr

/-- `CachedCreators::last_updated`: the stored timestamp is returned only
when the queried fee does not exceed the stored fee tier. -/
def CachedCreators.last_updated (c : CachedCreators) (fee : Nat) : Option Int :=
  if fee ≤ c.fee then some c.updated else none

/-- `CachedCreators::update`: monotonic max-update on both fields. -/
def CachedCreators.update (c : CachedCreators) (updated : Int) (fee : Nat) :
    CachedCreators :=
  let c1 := if c.updated < updated then { c with updated := updated } else c
  if c1.fee < fee then { c1 with fee := fee } else c1

/-- A sequence of `update` calls applied in order. -/
def CachedCreators.updateSeq (c : CachedCreators) : List (Int × Nat) → CachedCreators
  | [] => c
  | (u, f) :: rest => (c.update u f).updateSeq rest

lemma CachedCreators.update_updated (c : CachedCreators) (u : Int) (f : Nat) :
    (c.update u f).updated = max c.updated u := by
  simp only [CachedCreators.update]
  split <;> split <;> simp_all <;> omega

lemma CachedCreators.update_fee (c : CachedCreators) (u : Int) (f : Nat) :
    (c.update u f).fee = max c.fee f := by
  simp only [CachedCreators.update]
  split <;> split <;> simp_all <;> omega

lemma CachedCreators.updateSeq_mono (c : CachedCreators) (calls : List (Int × Nat)) :
    c.updated ≤ (c.updateSeq calls).updated ∧ c.fee ≤ (c.updateSeq calls).fee := by
  induction calls generalizing c with
  | nil => exact ⟨le_refl _, le_refl _⟩
  | cons uf rest ih =>
    obtain ⟨h1, h2⟩ := ih (c.update uf.1 uf.2)
    refine ⟨le_trans ?_ h1, le_trans ?_ h2⟩
    · rw [CachedCreators.update_updated]; exact le_max_left _ _
    · rw [CachedCreators.update_fee]; exact le_max_left _ _

/-- Claim C4: every `update` call sets `updated` and `fee` to the max of
the old and new value, hence both fields are non-decreasing across any
sequence of calls; `last_updated fee'` is `none` exactly when `fee'`
strictly exceeds the stored fee and `some updated` when `fee'` is at
most the stored fee. -/
theorem c4_checkpoint_monotone (c : CachedCreators) (u : Int) (f : Nat)
    (calls : List (Int × Nat)) (fee' : Nat) :
    ((c.update u f).updated = max c.updated u ∧ (c.update u f).fee = max c.fee f)
    ∧ (c.updated ≤ (c.updateSeq calls).updated ∧ c.fee ≤ (c.updateSeq calls).fee)
    ∧ (c.fee < fee' → c.last_updated fee' = none)
    ∧ (fee' ≤ c.fee → c.last_updated fee' = some c.updated) := by
  refine ⟨⟨c.update_updated u f, c.update_fee u f⟩, c.updateSeq_mono calls, ?_, ?_⟩
  · intro h
    simp [CachedCreators.last_updated, Nat.not_le.mpr h]
  · intro h
    simp [CachedCreators.last_updated, h]

/-- Witness for C4 at a concrete checkpoint. -/
theorem c4_checkpoint_monotone_witness :
    (CachedCreators.update ⟨3, 2⟩ 5 1).updated = max 3 5
    ∧ CachedCreators.last_updated ⟨3, 2⟩ 4 = none
    ∧ CachedCreators.last_updated ⟨3, 2⟩ 2 = some 3 :=
  ⟨(c4_checkpoint_monotone ⟨3, 2⟩ 5 1 [] 4).1.1,
   (c4_checkpoint_monotone ⟨3, 2⟩ 5 1 [] 4).2.2.1 (by decide),
   (c4_checkpoint_monotone ⟨3, 2⟩ 5 1 [] 2).2.2.2 (by decide)⟩

/-! ## Provider-keyed embed and video rendering (`src/post/body.rs`
lines 117-231).

The renderers log through `error!` and abort through `unimplemented!()`
or `.unwrap()`.  They are modelled as returning the list of emitted log
lines together with `Option String`, where `none` models the panic. -/

/-- `deconstruct` inside the `fanbox` embed arm: splits `content_id` on
`/` and requires the shape `creator/{c}/post/{p}`. -/
def deconstruct (input : String) : Option (String × String) :=
  match input.splitOn "/" with
  | [a, creator, b, post] =>
    if a = "creator" ∧ b = "post" then some (creator, post) else none
  | _ => none

/-- `PostVideo::to_text`: a known provider renders a Markdown snippet; an
unknown provider logs two lines and hits `unimplemented!()` (`none`). -/
def PostVideo.to_text (v : PostVideo) : List String × Option String :=
  if v.service_provider = "youtube" then
    ([], some ("[![youtube](https://img.youtube.com/vi/" ++ v.video_id
      ++ "/0.jpg)](https://www.youtube.com/watch?v=" ++ v.video_id ++ ")"))
  else
    (["Unknown video provider (" ++ v.service_provider ++ ")",
      "video_id: " ++ v.video_id], none)

/-- `PostEmbed::to_text`: the four known providers render Markdown
snippets (the `fanbox` arm panics on a malformed `content_id` via
`deconstruct(..).unwrap()`); an unknown provider logs three lines and
hits `unimplemented!()` (`none`). -/
def PostEmbed.to_text (e : PostEmbed) : List String × Option String :=
  if e.service_provider = "youtube" then
    ([], some ("[![youtube](https://img.youtube.com/vi/" ++ e.content_id
      ++ "/0.jpg)](https://www.youtube.com/watch?v=" ++ e.content_id ++ ")"))
  else if e.service_provider = "google_forms" then
    ([], some ("[Google Form](https://docs.google.com/forms/d/e/" ++ e.content_id
      ++ "/viewform)"))
  else if e.service_provider = "fanbox" then
    match deconstruct e.content_id with
    | some (creator, post) =>
      ([], some ("[Fanbox Post (" ++ creator ++ "/" ++ post ++ ")]("
        ++ get_source_link creator post ++ ")"))
    | none => ([], none)
  else if e.service_provider = "twitter" then
    ([], some ("[Tweet](https://twitter.com/i/web/status/" ++ e.content_id ++ ")"))
  else
    (["Unknown embed provider (" ++ e.service_provider ++ ")",
      "id: " ++ e.id,
      "content_id: " ++ e.content_id], none)

/-- Index of the first occurrence of `pat` in `s` (`str::find` on the
character sequence). -/
def findSubIdx (pat : List Char) : List Char → Option Nat
  | [] => if pat = [] then some 0 else none
  | c :: cs =>
    if pat.isPrefixOf (c :: cs) then some 0
    else (findSubIdx pat cs).map (· + 1)

/-- The iframe-mining shared by the `html` and `html.card` url-embed
kinds: find `<iframe src="`, then take the source up to the closing
quote; either miss yields the `[Invalid URL Embed]` placeholder. -/
def mineIframeSrc (htmlBody : String) : String :=
  match findSubIdx "<iframe src=\"".toList htmlBody.toList with
  | none => "[Invalid URL Embed]"
  | some start =>
    let rest := htmlBody.toList.drop (start + 13)
    match findSubIdx ['\"'] rest with
    | none => "[Invalid URL Embed]"
    | some endIdx =>
      let src := String.mk (rest.take endIdx)
      "[" ++ src ++ "](" ++ src ++ ")"

/-- `PostTextEmbed::to_text` (total: every arm returns a string). -/
def PostTextEmbed.to_text : PostTextEmbed → String
  | .html _ htmlBody => mineIframeSrc htmlBody
  | .htmlCard _ htmlBody => mineIframeSrc htmlBody
  | .fanboxPost _ post_info =>
    "[Fanbox Post " ++ post_info.title ++ "]("
      ++ get_source_link post_info.creator_id post_info.id ++ ")"
  | .fanboxCreator _ profile =>
    "[Creator " ++ profile.name ++ "](https://" ++ profile.creator_id ++ ".fanbox.cc)"
  | .default _ url _ => "[" ++ url ++ "](" ++ url ++ ")"

/-! ## Block-to-content transformation (`PostBlock::to_text`,
`src/post/body.rs` lines 46-80).

`files` is the side map from reference id to the file's assigned
`FileMetaId`.  `none` models a panic: `.unwrap()` on a missing id in
`files`, on an absent side table, on a missing video, or a panic inside
a provider renderer. -/

/-- `PostBlock::to_text`. -/
def PostBlock.to_text (b : PostBlock) (body : PostBody) (files : List (String × Nat)) :
    Option Content :=
  match b with
  | .p text styles =>
    if text = "" then some (.text "<br>")
    else (PostBlock.style_text text styles).map .text
  | .header text styles =>
    (PostBlock.style_text text styles).map (fun s => .text ("# " ++ s))
  | .image image_id => (files.lookup image_id).map .file
  | .file file_id => (files.lookup file_id).map .file
  | .embed embed_id =>
    match body.embed_map with
    | none => none
    | some m =>
      match m.lookup embed_id with
      | none => some (.text ("[Embed not found: " ++ embed_id ++ "]"))
      | some e => e.to_text.2.map .text
  | .video video_id =>
    match body.videos with
    | none => none
    | some vs =>
      match vs.find? (fun v => v.video_id = video_id) with
      | none => none
      | some v => v.to_text.2.map .text
  | .urlEmbed url_embed_id =>
    match body.url_embed_map with
    | none => none
    | some m =>
      match m.lookup url_embed_id with
      | none => some (.text ("[URL Embed not found: " ++ url_embed_id ++ "]"))
      | some u => some (.text u.to_text)

/-- A post body with every field absent, used as a concrete input. -/
def emptyBody : PostBody :=
  ⟨none, none, none, none, none, none, none, none, none⟩

/-- Claim C1 counterexample: an `Image` block whose id `i1` does not
resolve in the `files` side map makes `PostBlock::to_text` panic
(`.unwrap()` on the missing key, modelled as `none`) instead of
emitting the raw id `i1` as a Text placeholder. -/
theorem c1_image_unresolved_panics :
    PostBlock.to_text (.image "i1") emptyBody [] = none := by
  rfl

/-- Claim C1 amended: an unresolved `Embed` or `UrlEmbed` reference id
degrades to a bracketed Text placeholder naming the raw id and returns
normally, but an unresolved `Image` or `File` reference id (and an
absent embed side table) fails the transformation of the post with a
panic, modelled as `none`. -/
theorem c1_unresolved_reference_behavior (body : PostBody)
    (files : List (String × Nat)) (id : String) :
    (∀ m, body.embed_map = some m → m.lookup id = none →
      PostBlock.to_text (.embed id) body files
        = some (.text ("[Embed not found: " ++ id ++ "]")))
    ∧ (∀ m, body.url_embed_map = some m → m.lookup id = none →
      PostBlock.to_text (.urlEmbed id) body files
        = some (.text ("[URL Embed not found: " ++ id ++ "]")))
    ∧ (files.lookup id = none →
      PostBlock.to_text (.image id) body files = none
      ∧ PostBlock.to_text (.file id) body files = none) := by
  refine ⟨?_, ?_, ?_⟩
  · intro m hm hl
    simp [PostBlock.to_text, hm, hl]
  · intro m hm hl
    simp [PostBlock.to_text, hm, hl]
  · intro hl
    constructor <;> simp [PostBlock.to_text, hl]

/-- Witness for the amended C1 at concrete side tables. -/
theorem c1_unresolved_reference_behavior_witness :
    PostBlock.to_text (.embed "e9")
      { emptyBody with embed_map := some [] } []
      = some (.text "[Embed not found: e9]")
    ∧ PostBlock.to_text (.image "e9") { emptyBody with embed_map := some [] } [] = none :=
  ⟨(c1_unresolved_reference_behavior { emptyBody with embed_map := some [] } [] "e9").1
      [] rfl rfl,
   ((c1_unresolved_reference_behavior { emptyBody with embed_map := some [] } [] "e9").2.2
      rfl).1⟩

/-- Claim C6 counterexample: a `PostEmbed` with the unknown provider
`spotify` logs three lines and then hits `unimplemented!()` — the
transformation aborts (`none`) rather than returning normally. -/
theorem c6_unknown_provider_panics :
    PostEmbed.to_text ⟨"e1", "spotify", "c1"⟩
      = (["Unknown embed provider (spotify)", "id: e1", "content_id: c1"], none) := by
  rfl

/-- Claim C6 amended: for every `PostEmbed` whose provider is none of
the known kinds, rendering logs the unknown provider (three log lines)
and then panics via `unimplemented!()`, aborting the post's
transformation instead of emitting nothing representable. -/
theorem c6_unknown_provider_logs_then_aborts (e : PostEmbed)
    (h1 : e.service_provider ≠ "youtube") (h2 : e.service_provider ≠ "google_forms")
    (h3 : e.service_provider ≠ "fanbox") (h4 : e.service_provider ≠ "twitter") :
    PostEmbed.to_text e
      = (["Unknown embed provider (" ++ e.service_provider ++ ")",
          "id: " ++ e.id,
          "content_id: " ++ e.content_id], none) := by
  simp [PostEmbed.to_text, h1, h2, h3, h4]

/-- Witness for the amended C6 at a concrete embed. -/
theorem c6_unknown_provider_logs_then_aborts_witness :
    PostEmbed.to_text ⟨"e2", "soundcloud", "c2"⟩
      = (["Unknown embed provider (soundcloud)", "id: e2", "content_id: c2"], none) :=
  c6_unknown_provider_logs_then_aborts ⟨"e2", "soundcloud", "c2"⟩
    (by decide) (by decide) (by decide) (by decide)

/-- Claim C2 (code bug): on the text `abcdefgh` with the two overlapping
bold spans at offset 0 length 5 and offset 2 length 6, `style_text`
emits `**ab**cde**fgh`: the closing marker registered at index 8 (the
text length) is dropped by the emission loop, leaving three `**` markers
— six asterisks, not a multiple of four — so the number of opening
markers cannot equal the number of closing markers. -/
theorem c2_style_text_unbalanced_at_end :
    PostBlock.style_text "abcdefgh" (some [⟨"bold", 0, 5⟩, ⟨"bold", 2, 6⟩])
      = some "**ab**cde**fgh"
    ∧ asteriskCount "**ab**cde**fgh" % 4 = 2 := by
  constructor
  · rfl
  · rfl

/-! ## Post filtering (`Config::filter_post`, `src/config/mod.rs` lines
143-152, and its use in `get_creator_posts`, `src/creator/mod.rs` lines
113-124). -/

/-- Archiving strategy. -/
inductive Strategy where
  | increment
  | full
  | force
deriving DecidableEq, Repr

/-- Configuration fields consumed by the filtering stage. -/
structure Config where
  skip_free : Bool
  whitelist : List String
  blacklist : List String
  strategy : Strategy

/-- `Config::filter_post`: drop free posts when `skip_free` is set, and
always drop restricted (supporter-only) posts. -/
def Config.filter_post (c : Config) (post : PostListItem) : Bool :=
  let accept := true
  let accept := accept && !(c.skip_free && post.fee_required == 0)
  let accept := accept && !post.is_restricted
  accept

/-- The filtering applied by `get_creator_posts` before sending posts to
the fetch pipeline: `filter_post`, then the dedup filter (skipped
entirely under the `force` strategy); `unsynced` is the store's
dedup-check (`filter_unsynced_post`) as an oracle. -/
def creatorPostsFiltered (c : Config) (unsynced : PostListItem → Bool)
    (posts : List PostListItem) : List PostListItem :=
  (posts.filter c.filter_post).filter
    (fun post => decide (c.strategy = .force) || unsynced post)

/-- Claim C10: a restricted post is always rejected by `filter_post`,
a free post is rejected whenever `skip_free` is set, and consequently
the list forwarded to the fetch pipeline never contains a restricted
post (nor, under `skip_free`, a free one), regardless of strategy or
dedup oracle. -/
theorem c10_restricted_posts_filtered (c : Config) (post : PostListItem)
    (unsynced : PostListItem → Bool) (posts : List PostListItem) :
    (post.is_restricted = true → c.filter_post post = false)
    ∧ (c.skip_free = true → post.fee_required = 0 → c.filter_post post = false)
    ∧ (∀ q ∈ creatorPostsFiltered c unsynced posts,
        q.is_restricted = false ∧ (c.skip_free = true → q.fee_required ≠ 0)) := by
  refine ⟨?_, ?_, ?_⟩
  · intro h
    simp [Config.filter_post, h]
  · intro hs hf
    simp [Config.filter_post, hs, hf]
  · intro q hq
    simp only [creatorPostsFiltered, List.mem_filter] at hq
    obtain ⟨⟨_, hacc⟩, _⟩ := hq
    simp only [Config.filter_post, Bool.true_and, Bool.and_eq_true, Bool.not_eq_true',
      beq_iff_eq] at hacc
    obtain ⟨h1, h2⟩ := hacc
    refine ⟨h2, ?_⟩
    intro hs hf
    rw [hs, hf] at h1
    simp at h1

/-- Witness for C10 at a concrete restricted post. -/
theorem c10_restricted_posts_filtered_witness :
    Config.filter_post ⟨true, [], [], .increment⟩
      ⟨"p1", "t", 0, 0, 0, [], true, 0, "c"⟩ = false :=
  (c10_restricted_posts_filtered ⟨true, [], [], .increment⟩
    ⟨"p1", "t", 0, 0, 0, [], true, 0, "c"⟩ (fun _ => true) []).1 rfl

/-! ## Comment pagination (`FanboxClient::get_post_comments`,
`src/api/fanbox.rs` lines 166-181).

The server is modelled as the sequence of responses the sequential
cursor walk receives, one per request issued. -/

/-- A comment of a post (opaque payload for the pagination model). -/
structure Comment where
  id : String
  body : String
deriving DecidableEq, Repr

/-- One page of the comment cursor: items plus the next-page URL. -/
structure CommentPage where
  items : List Comment
  next_url : Option String
deriving DecidableEq, Repr

/-- A `post.getComments` response envelope: the comment list may be
absent. -/
structure PostComments where
  comment_list : Option CommentPage
deriving DecidableEq, Repr

/-- The `while let Some(url) = next_url` loop: each step issues one
request (counted), stops when the response carries no comment list,
appends the page's items, and continues only when a next-page URL is
present.  Returns the flat comment list and the number of requests. -/
def walkComments : List PostComments → List Comment × Nat
  | [] => ([], 0)
  | r :: rest =>
    match r.comment_list with
    | none => ([], 1)
    | some page =>
      match page.next_url with
      | none => (page.items, 1)
      | some _ =>
        let (cs, n) := walkComments rest
        (page.items ++ cs, n + 1)

/-- `FanboxClient::get_post_comments`: zero comment count short-circuits
to the empty list with no request; otherwise the cursor walk runs. -/
def get_post_comments (comment_count : Nat) (server : List PostComments) :
    List Comment × Nat :=
  if comment_count = 0 then ([], 0) else walkComments server

/-- Number of responses the cursor walk consumes before terminating:
one for a response without a comment list or without a next-page URL,
one plus the remainder otherwise. -/
def consumedLen : List PostComments → Nat
  | [] => 0
  | r :: rest =>
    match r.comment_list with
    | none => 1
    | some page => if page.next_url.isSome then 1 + consumedLen rest else 1

lemma walkComments_eq_take (server : List PostComments) :
    walkComments server
      = (((server.take (consumedLen server)).filterMap
            (fun r => r.comment_list.map CommentPage.items)).flatten,
         consumedLen server) := by
  induction server with
  | nil => rfl
  | cons r rest ih =>
    cases hc : r.comment_list with
    | none => simp [walkComments, consumedLen, hc]
    | some page =>
      cases hn : page.next_url with
      | none => simp [walkComments, consumedLen, hc, hn]
      | some u =>
        simp only [walkComments, consumedLen, hc, hn, Option.isSome_some, if_pos,
          ih, List.take, Nat.add_comm 1 (consumedLen rest)]
        simp [List.take_succ_cons, hc]

/-- Claim C8: `get_post_comments` returns the empty list with zero
requests when `comment_count` is 0; otherwise it walks the next-page
cursor sequentially, returning the flat concatenation of the items of
exactly the consumed prefix of responses — the walk stops at the first
response without a comment list (contributing no items) or without a
next-page URL (contributing its items). -/
theorem c8_comment_pagination (comment_count : Nat) (server : List PostComments) :
    get_post_comments 0 server = ([], 0)
    ∧ (0 < comment_count →
        get_post_comments comment_count server
          = (((server.take (consumedLen server)).filterMap
                (fun r => r.comment_list.map CommentPage.items)).flatten,
             consumedLen server)) := by
  refine ⟨rfl, ?_⟩
  intro h
  rw [get_post_comments, if_neg (Nat.pos_iff_ne_zero.mp h), walkComments_eq_take]

/-- Witness for C8 on a two-page cursor walk. -/
theorem c8_comment_pagination_witness :
    get_post_comments 3
        [⟨some ⟨[⟨"c1", "hi"⟩], some "page2"⟩⟩, ⟨some ⟨[⟨"c2", "yo"⟩], none⟩⟩]
      = ([⟨"c1", "hi"⟩, ⟨"c2", "yo"⟩], 2) :=
  (c8_comment_pagination 3
      [⟨some ⟨[⟨"c1", "hi"⟩], some "page2"⟩⟩, ⟨some ⟨[⟨"c2", "yo"⟩], none⟩⟩]).2
    (by decide)

/-! ## Checkpoint-pruned post pagination.

The caller `get_creator_posts` (`src/creator/mod.rs` lines 95-129)
invokes `client.get_posts(creator_id, last_updated)` and receives
`(posts, last_date)`; the checkpoint-aware `FanboxClient::get_posts`
itself is not among the provided sources (the `src/api/fanbox.rs`
snapshot predates the checkpoint parameter), so it is modelled from the
spec below. -/

/-- One page of the paginated post index; the page URL encodes a
`firstPublishedDatetime`, and pages are served newest-first. -/
structure Page where
  date : Int
  items : List PostListItem
deriving DecidableEq, Repr

/-- Modelled from the spec: the page-fetch walk of the checkpoint-aware
`FanboxClient::get_posts` (missing from `src/api/fanbox.rs`).  Pages
are visited in order (newest first); when a checkpoint is supplied and a
page's datetime is at most the checkpoint, that page and all subsequent
(older) pages are skipped. -/
def fetchPages (checkpoint : Option Int) : List Page → List Page
  | [] => []
  | pg :: rest =>
    match checkpoint with
    | some t => if pg.date ≤ t then [] else pg :: fetchPages checkpoint rest
    | none => pg :: fetchPages checkpoint rest

/-- Running maximum of the datetimes observed on the fetched pages. -/
def maxPageDate : List Page → Option Int
  | [] => none
  | pg :: rest =>
    match maxPageDate rest with
    | none => some pg.date
    | some m => some (max pg.date m)

/-- Modelled from the spec: the checkpoint-aware `FanboxClient::get_posts`
(missing from `src/api/fanbox.rs`): returns the flattened item list of
the fetched pages plus the newest `firstPublishedDatetime` observed. -/
def get_posts_paginated (checkpoint : Option Int) (pages : List Page) :
    List PostListItem × Option Int :=
  let fetched := fetchPages checkpoint pages
  ((fetched.map Page.items).flatten, maxPageDate fetched)

lemma fetchPages_eq_filter (t : Int) (pages : List Page)
    (hsorted : pages.Pairwise (fun a b => b.date < a.date)) :
    fetchPages (some t) pages = pages.filter (fun pg => decide (t < pg.date)) := by
  induction pages with
  | nil => rfl
  | cons pg rest ih =>
    rw [List.pairwise_cons] at hsorted
    obtain ⟨hhead, htail⟩ := hsorted
    by_cases h : pg.date ≤ t
    · have h1 : (pg :: rest).filter (fun q => decide (t < q.date)) = [] := by
        rw [List.filter_eq_nil_iff]
        intro q hq
        rcases List.mem_cons.mp hq with hq | hq
        · subst hq
          simpa using h
        · have hq2 := hhead q hq
          simp only [decide_eq_true_eq, not_lt]
          omega
      rw [h1]
      simp [fetchPages, h]
    · push_neg at h
      rw [List.filter_cons_of_pos (by simpa using h)]
      simp only [fetchPages, if_neg (by omega : ¬ pg.date ≤ t)]
      rw [ih htail]

lemma maxPageDate_mem (l : List Page) (d : Int) (h : maxPageDate l = some d) :
    d ∈ l.map Page.date := by
  induction l generalizing d with
  | nil => simp [maxPageDate] at h
  | cons pg rest ih =>
    simp only [maxPageDate] at h
    cases hr : maxPageDate rest with
    | none =>
      rw [hr] at h
      simp only [Option.some.injEq] at h
      simp [← h]
    | some m =>
      rw [hr] at h
      simp only [Option.some.injEq] at h
      rcases max_choice pg.date m with hc | hc

      · simp [← h, hc]
      · right
        rw [← h, hc]
        exact ih m hr

lemma maxPageDate_none (l : List Page) (h : maxPageDate l = none) : l = [] := by
  cases l with
  | nil => rfl
  | cons pg rest =>
    exfalso
    simp only [maxPageDate] at h
    cases hq : maxPageDate rest <;> rw [hq] at h <;> simp at h

lemma maxPageDate_ge (l : List Page) (d : Int) (h : maxPageDate l = some d) :
    ∀ d' ∈ l.map Page.date, d' ≤ d := by
  induction l generalizing d with
  | nil => simp
  | cons pg rest ih =>
    intro d' hd'
    simp only [maxPageDate] at h
    cases hr : maxPageDate rest with
    | none =>
      rw [hr] at h
      simp only [Option.some.injEq] at h
      have hnil := maxPageDate_none rest hr
      subst hnil
      simp only [List.map_cons, List.map_nil, List.mem_singleton] at hd'
      omega
    | some m =>
      rw [hr] at h
      simp only [Option.some.injEq] at h
      rcases List.mem_cons.mp (by simpa using hd' : d' ∈ pg.date :: rest.map Page.date)
        with hc | hc
      · subst hc
        rw [← h]
        exact le_max_left _ _
      · have := ih m hr d' hc
        rw [← h]
        exact le_trans this (le_max_right _ _)

/-- Claim C5: with pages ordered newest-first (strictly decreasing
datetimes) and a checkpoint `t`, the returned item list is exactly the
flattened items of the pages with datetime above `t` (every item of a
page with datetime at most `t` is excluded), and the returned last-date
is the maximum datetime over the pages actually fetched (it is absent
exactly when no page was fetched). -/
theorem c5_pagination_skip (t : Int) (pages : List Page)
    (hsorted : pages.Pairwise (fun a b => b.date < a.date)) :
    (get_posts_paginated (some t) pages).1
      = ((pages.filter (fun pg => decide (t < pg.date))).map Page.items).flatten
    ∧ (∀ d, (get_posts_paginated (some t) pages).2 = some d →
        d ∈ (fetchPages (some t) pages).map Page.date
        ∧ ∀ d' ∈ (fetchPages (some t) pages).map Page.date, d' ≤ d)
    ∧ ((get_posts_paginated (some t) pages).2 = none →
        fetchPages (some t) pages = []) := by
  refine ⟨?_, ?_, ?_⟩
  · simp only [get_posts_paginated]
    rw [fetchPages_eq_filter t pages hsorted]
  · intro d hd
    exact ⟨maxPageDate_mem _ d hd, maxPageDate_ge _ d hd⟩
  · intro hd
    exact maxPageDate_none _ hd

/-- Witness for C5 on two concrete pages with the checkpoint between
their datetimes. -/
theorem c5_pagination_skip_witness :
    (get_posts_paginated (some 5)
        [⟨10, [⟨"p1", "t1", 0, 10, 10, [], false, 0, "c"⟩]⟩, ⟨5, []⟩]).1
      = [⟨"p1", "t1", 0, 10, 10, [], false, 0, "c"⟩] :=
  (c5_pagination_skip 5
      [⟨10, [⟨"p1", "t1", 0, 10, 10, [], false, 0, "c"⟩]⟩, ⟨5, []⟩]
      (by decide)).1

/-! ## Failed-post ledger lifecycle (`check_failed_posts`,
`update_failed_posts` and `get_posts`, `src/post/mod.rs` lines 44-129).

The cross-run context stores the ledger (the `failed_posts` field of
`Context`, declared in the `fanbox`/context module; its uses are all in
`src/post/mod.rs`).  The concurrent stage is modelled sequentially: the
ledger batch is sent into the posts pipeline before the consume loop
starts, then the loop drains the queued batches in order; each post's
fetch outcome is given by the `fetchOk` oracle, and a failed fetch
appends the item to the new-failure list. -/

/-- The cross-run mutable context: the failed-post ledger. -/
structure ContextModel where
  failed_posts : List PostListItem
deriving DecidableEq, Repr

/-- `check_failed_posts`: the prior ledger is sent as one batch into the
posts pipeline, unless it is empty. -/
def check_failed_posts (ctx : ContextModel) : List (List PostListItem) :=
  if ctx.failed_posts.isEmpty then [] else [ctx.failed_posts]

/-- The per-batch fetch loop: a successful fetch forwards the post to
the file/sync pipelines (collected in the first component, in order); a
failed fetch pushes the item onto the failure list (second component). -/
def runBatch (fetchOk : PostListItem → Bool) :
    List PostListItem → List PostListItem × List PostListItem
  | [] => ([], [])
  | post :: rest =>
    let (s, f) := runBatch fetchOk rest
    if fetchOk post then (post :: s, f) else (s, post :: f)

/-- Draining the queued batches in order. -/
def runBatches (fetchOk : PostListItem → Bool) :
    List (List PostListItem) → List PostListItem × List PostListItem
  | [] => ([], [])
  | b :: rest =>
    let (s1, f1) := runBatch fetchOk b
    let (s2, f2) := runBatches fetchOk rest
    (s1 ++ s2, f1 ++ f2)

/-- `get_posts` followed by `update_failed_posts`: re-queue the prior
ledger, drain the queue, and replace the ledger with this run's
failures.  Returns the forwarded posts and the updated context. -/
def get_posts_run (ctx : ContextModel) (discovered : List (List PostListItem))
    (fetchOk : PostListItem → Bool) : List PostListItem × ContextModel :=
  let queue := check_failed_posts ctx ++ discovered
  let (sent, failed) := runBatches fetchOk queue
  (sent, ⟨failed⟩)

lemma runBatch_eq (fetchOk : PostListItem → Bool) (b : List PostListItem) :
    runBatch fetchOk b = (b.filter fetchOk, b.filter (fun p => !fetchOk p)) := by
  induction b with
  | nil => rfl
  | cons post rest ih =>
    simp only [runBatch, ih]
    cases h : fetchOk post <;> simp [List.filter_cons, h]

lemma runBatches_eq (fetchOk : PostListItem → Bool) (bs : List (List PostListItem)) :
    runBatches fetchOk bs
      = (bs.flatten.filter fetchOk, bs.flatten.filter (fun p => !fetchOk p)) := by
  induction bs with
  | nil => rfl
  | cons b rest ih =>
    simp only [runBatches, runBatch_eq, ih, List.flatten_cons, List.filter_append]

/-- Claim C7: the queue drained by `get_posts` consists of the prior
ledger's posts followed by the newly discovered batches (the ledger is
sent before any discovered post is consumed), and at run end the ledger
is replaced by exactly the posts whose fetch failed during this run:
posts that succeeded are absent, new failures are recorded. -/
theorem c7_failed_ledger_lifecycle (ctx : ContextModel)
    (discovered : List (List PostListItem)) (fetchOk : PostListItem → Bool) :
    (check_failed_posts ctx ++ discovered).flatten
      = ctx.failed_posts ++ discovered.flatten
    ∧ (get_posts_run ctx discovered fetchOk).2.failed_posts
      = (ctx.failed_posts ++ discovered.flatten).filter (fun p => !fetchOk p)
    ∧ ∀ p, fetchOk p = true →
        p ∉ (get_posts_run ctx discovered fetchOk).2.failed_posts := by
  have hqueue : (check_failed_posts ctx ++ discovered).flatten
      = ctx.failed_posts ++ discovered.flatten := by
    by_cases h : ctx.failed_posts.isEmpty
    · rw [List.isEmpty_iff] at h
      simp [check_failed_posts, h]
    · simp [check_failed_posts, h]
  have hledger : (get_posts_run ctx discovered fetchOk).2.failed_posts
      = (ctx.failed_posts ++ discovered.flatten).filter (fun p => !fetchOk p) := by
    simp only [get_posts_run, runBatches_eq, hqueue]
  refine ⟨hqueue, hledger, ?_⟩
  intro p hp hmem
  rw [hledger] at hmem
  have := List.of_mem_filter hmem
  rw [hp] at this
  simp at this

/-- Witness for C7: a prior failure that succeeds on retry leaves the
ledger holding only this run's new failure. -/
theorem c7_failed_ledger_lifecycle_witness :
    (get_posts_run ⟨[⟨"p1", "t", 0, 0, 0, [], false, 0, "c"⟩]⟩
        [[⟨"p2", "t", 0, 0, 0, [], false, 0, "c"⟩]]
        (fun p => p.id == "p1")).2.failed_posts
      = [⟨"p2", "t", 0, 0, 0, [], false, 0, "c"⟩] := by
  rw [(c7_failed_ledger_lifecycle ⟨[⟨"p1", "t", 0, 0, 0, [], false, 0, "c"⟩]⟩
      [[⟨"p2", "t", 0, 0, 0, [], false, 0, "c"⟩]] (fun p => p.id == "p1")).2.1]
  rfl

/-! ## Author-resolution caching (`sync_creator`, `src/creator/mod.rs`
lines 161-194, consumed by `sync_posts`, `src/post/mod.rs` lines
131-145).

The in-memory cache `authors : HashMap<String, AuthorId>` is an
association list with most-recent-insert first; the archive store's
`UnsyncAuthor::sync` call is an oracle from creator id to the resulting
`AuthorId` (`none` models a sync failure). -/

/-- The post fields `sync_creator` reads. -/
structure PostModel where
  creator_id : String
  user_name : String
  user_id : String
deriving DecidableEq, Repr

/-- `sync_creator`: a cached creator id returns immediately; otherwise
the author record is synced through the store (the oracle) and, on
success, cached.  The third component records whether a store sync was
performed. -/
def sync_creator (authors : List (String × Nat)) (syncOracle : String → Option Nat)
    (post : PostModel) : Option Nat × List (String × Nat) × Bool :=
  match authors.lookup post.creator_id with
  | some a => (some a, authors, false)
  | none =>
    match syncOracle post.creator_id with
    | some a => (some a, (post.creator_id, a) :: authors, true)
    | none => (none, authors, true)

/-- The persistence loop's author resolution across a run: each post is
resolved through `sync_creator`, threading the cache.  Returns the
per-post `(result, did-sync)` trace and the final cache. -/
def syncCreatorRun (syncOracle : String → Option Nat) :
    List PostModel → List (String × Nat) →
    List (Option Nat × Bool) × List (String × Nat)
  | [], authors => ([], authors)
  | post :: rest, authors =>
    let r := sync_creator authors syncOracle post
    let rest1 := syncCreatorRun syncOracle rest r.2.1
    ((r.1, r.2.2) :: rest1.1, rest1.2)

/-- The trace entries belonging to posts of creator `c`. -/
def traceFor (c : String) (posts : List PostModel)
    (trace : List (Option Nat × Bool)) : List (Option Nat × Bool) :=
  (posts.zip trace).filterMap
    (fun pr => if pr.1.creator_id = c then some pr.2 else none)

lemma traceFor_cons (c : String) (post : PostModel) (rest : List PostModel)
    (x : Option Nat × Bool) (trace : List (Option Nat × Bool)) :
    traceFor c (post :: rest) (x :: trace)
      = if post.creator_id = c then x :: traceFor c rest trace
        else traceFor c rest trace := by
  simp only [traceFor, List.zip_cons_cons, List.filterMap_cons]
  split <;> simp_all

lemma sync_creator_hit (authors : List (String × Nat))
    (syncOracle : String → Option Nat) (post : PostModel) (a : Nat)
    (h : authors.lookup post.creator_id = some a) :
    sync_creator authors syncOracle post = (some a, authors, false) := by
  simp [sync_creator, h]

lemma sync_creator_miss (authors : List (String × Nat))
    (syncOracle : String → Option Nat) (post : PostModel) (a : Nat)
    (h : authors.lookup post.creator_id = none)
    (ho : syncOracle post.creator_id = some a) :
    sync_creator authors syncOracle post = (some a, (post.creator_id, a) :: authors, true) := by
  simp [sync_creator, h, ho]

lemma sync_creator_other_preserves (authors : List (String × Nat))
    (syncOracle : String → Option Nat) (post : PostModel) (c : String)
    (hne : post.creator_id ≠ c) :
    (sync_creator authors syncOracle post).2.1.lookup c = authors.lookup c := by
  simp only [sync_creator]
  cases authors.lookup post.creator_id with
  | some a => rfl
  | none =>
    cases syncOracle post.creator_id with
    | some a =>
      have hbeq : (c == post.creator_id) = false := by
        simp only [beq_eq_false_iff_ne]
        exact fun h => hne h.symm
      simp [List.lookup, hbeq]
    | none => rfl

lemma syncCreatorRun_cached (syncOracle : String → Option Nat) (c : String) (a : Nat)
    (posts : List PostModel) (authors : List (String × Nat))
    (hcache : authors.lookup c = some a) :
    traceFor c posts (syncCreatorRun syncOracle posts authors).1
      = List.replicate (posts.countP (fun p => p.creator_id == c)) (some a, false) := by
  induction posts generalizing authors with
  | nil => rfl
  | cons post rest ih =>
    by_cases hc : post.creator_id = c
    · have hl : authors.lookup post.creator_id = some a := by rw [hc]; exact hcache
      rw [show syncCreatorRun syncOracle (post :: rest) authors
          = ((some a, false) :: (syncCreatorRun syncOracle rest authors).1,
             (syncCreatorRun syncOracle rest authors).2) by
        simp only [syncCreatorRun, sync_creator_hit authors syncOracle post a hl]]
      rw [traceFor_cons, if_pos hc,
        List.countP_cons_of_pos _ _ (by simpa using hc), List.replicate_succ]
      congr 1
      exact ih authors hcache
    · have hpres := sync_creator_other_preserves authors syncOracle post c hc
      rw [show syncCreatorRun syncOracle (post :: rest) authors
          = (((sync_creator authors syncOracle post).1,
              (sync_creator authors syncOracle post).2.2)
              :: (syncCreatorRun syncOracle rest
                    (sync_creator authors syncOracle post).2.1).1,
             (syncCreatorRun syncOracle rest
                (sync_creator authors syncOracle post).2.1).2) from rfl]
      rw [traceFor_cons, if_neg hc,
        List.countP_cons_of_neg _ _ (by simpa using hc)]
      exact ih _ (by rw [hpres]; exact hcache)

lemma syncCreatorRun_first (syncOracle : String → Option Nat) (c : String) (a : Nat)
    (posts : List PostModel) (authors : List (String × Nat))
    (horacle : syncOracle c = some a) (hcache : authors.lookup c = none) :
    traceFor c posts (syncCreatorRun syncOracle posts authors).1
      = if posts.countP (fun p => p.creator_id == c) = 0 then []
        else (some a, true)
          :: List.replicate (posts.countP (fun p => p.creator_id == c) - 1)
               (some a, false) := by
  induction posts generalizing authors with
  | nil => rfl
  | cons post rest ih =>
    by_cases hc : post.creator_id = c
    · have hl : authors.lookup post.creator_id = none := by rw [hc]; exact hcache
      have ho : syncOracle post.creator_id = some a := by rw [hc]; exact horacle
      rw [show syncCreatorRun syncOracle (post :: rest) authors
          = ((some a, true)
              :: (syncCreatorRun syncOracle rest ((post.creator_id, a) :: authors)).1,
             (syncCreatorRun syncOracle rest ((post.creator_id, a) :: authors)).2) by
        simp only [syncCreatorRun, sync_creator_miss authors syncOracle post a hl ho]]
      rw [traceFor_cons, if_pos hc,
        List.countP_cons_of_pos _ _ (by simpa using hc)]
      rw [if_neg (by omega)]
      congr 1
      have hnew : ((post.creator_id, a) :: authors).lookup c = some a := by
        simp [List.lookup, hc]
      rw [syncCreatorRun_cached syncOracle c a rest ((post.creator_id, a) :: authors) hnew,
        Nat.add_sub_cancel]
    · have hpres := sync_creator_other_preserves authors syncOracle post c hc
      rw [show syncCreatorRun syncOracle (post :: rest) authors
          = (((sync_creator authors syncOracle post).1,
              (sync_creator authors syncOracle post).2.2)
              :: (syncCreatorRun syncOracle rest
                    (sync_creator authors syncOracle post).2.1).1,
             (syncCreatorRun syncOracle rest
                (sync_creator authors syncOracle post).2.1).2) from rfl]
      rw [traceFor_cons, if_neg hc,
        List.countP_cons_of_neg _ _ (by simpa using hc)]
      exact ih _ (by rw [hpres]; exact hcache)

/-- Claim C9: within a run, if the store sync for creator `c` yields
author `a`, then starting from a cache without `c` the first post by `c`
performs the one store sync and stores `a`, and every later post by `c`
returns the cached `a` without syncing again — the trace for `c` is one
`(some a, true)` entry followed only by `(some a, false)` entries; if
`c` is already cached, no post by `c` ever syncs. -/
theorem c9_author_resolution_idempotent (syncOracle : String → Option Nat)
    (c : String) (a : Nat) (posts : List PostModel) (authors : List (String × Nat)) :
    (authors.lookup c = some a →
      traceFor c posts (syncCreatorRun syncOracle posts authors).1
        = List.replicate (posts.countP (fun p => p.creator_id == c)) (some a, false))
    ∧ (syncOracle c = some a → authors.lookup c = none →
      traceFor c posts (syncCreatorRun syncOracle posts authors).1
        = if posts.countP (fun p => p.creator_id == c) = 0 then []
          else (some a, true)
            :: List.replicate (posts.countP (fun p => p.creator_id == c) - 1)
                 (some a, false)) :=
  ⟨fun hcache => syncCreatorRun_cached syncOracle c a posts authors hcache,
   fun horacle hcache =>
     syncCreatorRun_first syncOracle c a posts authors horacle hcache⟩

/-- Witness for C9: three posts by the same creator sync once. -/
theorem c9_author_resolution_idempotent_witness :
    traceFor "c1" [⟨"c1", "n", "u"⟩, ⟨"c1", "n", "u"⟩, ⟨"c1", "n", "u"⟩]
        (syncCreatorRun (fun _ => some 7)
          [⟨"c1", "n", "u"⟩, ⟨"c1", "n", "u"⟩, ⟨"c1", "n", "u"⟩] []).1
      = (some 7, true) :: List.replicate 2 (some 7, false) := by
  rw [(c9_author_resolution_idempotent (fun _ => some 7) "c1" 7
      [⟨"c1", "n", "u"⟩, ⟨"c1", "n", "u"⟩, ⟨"c1", "n", "u"⟩] []).2 rfl rfl]
  rfl

/-! ## Transactional per-post persistence (`sync_posts` and `save_file`,
`src/post/mod.rs` lines 131-172 and 231-261).

One incoming sync event carries the outcomes of its fallible steps:
whether `sync_creator` succeeded, the `import_post` result (the file
placements on success), the download reply (`rx.await`: a URL to
temporary-path map on success), whether the destination directory could
be created, and a per-URL copy outcome.  The store is the list of
committed post sources; an uncommitted transaction leaves it unchanged
(the transaction rolls back when dropped without commit). -/

/-- A `(finalPath, sourceUrl)` file placement expected by the store. -/
structure Placement where
  path : String
  url : String
deriving DecidableEq, Repr

/-- One event consumed by `sync_posts`, with the outcomes of its
fallible steps. -/
structure SyncEventModel where
  source : String
  creator_ok : Bool
  import_ok : Option (List Placement)
  reply : Option (List (String × String))
  mkdir_ok : Bool
  copy_ok : String → Bool

/-- `HashMap::remove`: take the entry for `url` out of the reply map. -/
def removeFirst (url : String) :
    List (String × String) → Option (String × List (String × String))
  | [] => none
  | (u, t) :: rest =>
    if u = url then some (t, rest)
    else (removeFirst url rest).map (fun r => (r.1, (u, t) :: r.2))

/-- The `for (path, url) in files` loop over `save_file`: the directory
is created for the first file only; the URL is removed from the reply
map (`none` is the `File not found in map` error); the copy may fail.
Any failure aborts the whole loop (`continue 'post`). -/
def saveFiles (copyOk : String → Bool) (mkdirOk : Bool) :
    List (String × String) → List Placement → Bool → Bool
  | _, [], _ => true
  | fm, pl :: rest, create_dir =>
    if create_dir && !mkdirOk then false
    else
      match removeFirst pl.url fm with
      | none => false
      | some r =>
        if copyOk pl.url then saveFiles copyOk mkdirOk r.2 rest false else false

/-- The body of the `'post` loop of `sync_posts` for one event: `true`
means the transaction was committed. -/
def processEvent (e : SyncEventModel) : Bool :=
  if !e.creator_ok then false
  else
    match e.import_ok with
    | none => false
    | some placements =>
      match e.reply with
      | none => false
      | some fm => saveFiles e.copy_ok e.mkdir_ok fm placements true

/-- `sync_posts`: drain the sync pipeline, committing each event's
transaction only on full success and otherwise continuing with the next
event, the store untouched for the aborted post. -/
def sync_posts (events : List SyncEventModel) (store : List String) : List String :=
  match events with
  | [] => store
  | e :: rest => sync_posts rest (if processEvent e then store ++ [e.source] else store)

lemma sync_posts_eq (events : List SyncEventModel) (store : List String) :
    sync_posts events store
      = store ++ (events.filter processEvent).map (fun ev => ev.source) := by
  induction events generalizing store with
  | nil => simp [sync_posts]
  | cons e rest ih =>
    cases h : processEvent e <;>
      simp [sync_posts, h, ih, List.filter_cons, List.append_assoc]

lemma removeFirst_mem (url : String) (fm : List (String × String))
    (r : String × List (String × String)) (h : removeFirst url fm = some r) :
    url ∈ fm.map Prod.fst := by
  induction fm generalizing r with
  | nil => simp [removeFirst] at h
  | cons ut rest ih =>
    obtain ⟨u, t⟩ := ut
    simp only [removeFirst] at h
    by_cases hu : u = url
    · simp [hu]
    · rw [if_neg hu] at h
      cases hr : removeFirst url rest with
      | none => rw [hr] at h; simp at h
      | some r1 =>
        right
        exact ih r1 hr

lemma removeFirst_keys_subset (url : String) (fm : List (String × String))
    (r : String × List (String × String)) (h : removeFirst url fm = some r) :
    ∀ k ∈ r.2.map Prod.fst, k ∈ fm.map Prod.fst := by
  induction fm generalizing r with
  | nil => simp [removeFirst] at h
  | cons ut rest ih =>
    obtain ⟨u, t⟩ := ut
    intro k hk
    simp only [removeFirst] at h
    by_cases hu : u = url
    · rw [if_pos hu] at h
      simp only [Option.some.injEq] at h
      simp only [List.map_cons, List.mem_cons]
      rw [← h] at hk
      exact Or.inr hk
    · rw [if_neg hu] at h
      cases hr : removeFirst url rest with
      | none => rw [hr] at h; simp at h
      | some r1 =>
        rw [hr] at h
        simp only [Option.map_some', Option.some.injEq] at h
        rw [← h] at hk
        simp only [List.map_cons, List.mem_cons] at hk
        simp only [List.map_cons, List.mem_cons]
        rcases hk with hk | hk
        · exact Or.inl hk
        · exact Or.inr (ih r1 hr k hk)

lemma saveFiles_true (copyOk : String → Bool) (mkdirOk : Bool)
    (pls : List Placement) (fm : List (String × String)) (cd : Bool)
    (h : saveFiles copyOk mkdirOk fm pls cd = true) :
    ∀ pl ∈ pls, pl.url ∈ fm.map Prod.fst ∧ copyOk pl.url = true := by
  induction pls generalizing fm cd with
  | nil => simp
  | cons pl rest ih =>
    simp only [saveFiles] at h
    by_cases hcd : (cd && !mkdirOk) = true
    · rw [if_pos hcd] at h; simp at h
    · rw [if_neg hcd] at h
      cases hr : removeFirst pl.url fm with
      | none => rw [hr] at h; simp at h
      | some r =>
        rw [hr] at h
        cases hcopy : copyOk pl.url with
        | false => rw [hcopy] at h; simp at h
        | true =>
          rw [hcopy] at h
          simp only [if_true] at h
          intro q hq
          rcases List.mem_cons.mp hq with hq | hq
          · subst hq
            exact ⟨removeFirst_mem q.url fm r hr, hcopy⟩
          · obtain ⟨h1, h2⟩ := ih r.2 false h q hq
            exact ⟨removeFirst_keys_subset pl.url fm r hr q.url h1, h2⟩

lemma processEvent_true_elim (e : SyncEventModel) (pls : List Placement)
    (fm : List (String × String)) (hp : processEvent e = true)
    (hi : e.import_ok = some pls) (hr : e.reply = some fm) :
    e.creator_ok = true ∧ saveFiles e.copy_ok e.mkdir_ok fm pls true = true := by
  simp only [processEvent, hi, hr] at hp
  cases hc : e.creator_ok with
  | false => rw [hc] at hp; simp at hp
  | true =>
    rw [hc] at hp
    simp only [Bool.not_true, Bool.false_eq_true, if_false] at hp
    exact ⟨rfl, hp⟩

/-- Claim C3: `sync_posts` appends to the store exactly the sources of
the committed events and keeps processing after every abort; an event
whose reply channel failed, whose reply map misses a placement URL, or
any of whose file copies fails is never committed (the store keeps zero
records for it); and a committed event had a successful creator sync,
a successful import and a successful reply. -/
theorem c3_post_persistence_atomic (events : List SyncEventModel)
    (store : List String) (e : SyncEventModel) :
    sync_posts events store
      = store ++ (events.filter processEvent).map (fun ev => ev.source)
    ∧ (e.reply = none → processEvent e = false)
    ∧ (∀ pls fm, e.import_ok = some pls → e.reply = some fm →
        (∃ pl ∈ pls, pl.url ∉ fm.map Prod.fst) → processEvent e = false)
    ∧ (∀ pls fm, e.import_ok = some pls → e.reply = some fm →
        (∃ pl ∈ pls, e.copy_ok pl.url = false) → processEvent e = false)
    ∧ (processEvent e = true →
        e.creator_ok = true ∧ e.import_ok.isSome = true ∧ e.reply.isSome = true) := by
  refine ⟨sync_posts_eq events store, ?_, ?_, ?_, ?_⟩
  · intro h
    cases hc : e.creator_ok with
    | false => simp [processEvent, hc]
    | true =>
      cases hi : e.import_ok with
      | none => simp [processEvent, hc, hi]
      | some pls => simp [processEvent, hc, hi, h]
  · intro pls fm hi hr hex
    cases hp : processEvent e with
    | false => rfl
    | true =>
      exfalso
      obtain ⟨pl, hmem, hnot⟩ := hex
      obtain ⟨_, hsave⟩ := processEvent_true_elim e pls fm hp hi hr
      exact hnot (saveFiles_true e.copy_ok e.mkdir_ok pls fm true hsave pl hmem).1
  · intro pls fm hi hr hex
    cases hp : processEvent e with
    | false => rfl
    | true =>
      exfalso
      obtain ⟨pl, hmem, hnot⟩ := hex
      obtain ⟨_, hsave⟩ := processEvent_true_elim e pls fm hp hi hr
      rw [(saveFiles_true e.copy_ok e.mkdir_ok pls fm true hsave pl hmem).2] at hnot
      exact Bool.noConfusion hnot
  · intro hp
    cases hc : e.creator_ok with
    | false => simp [processEvent, hc] at hp
    | true =>
      cases hi : e.import_ok with
      | none => simp [processEvent, hc, hi] at hp
      | some pls =>
        cases hr : e.reply with
        | none => simp [processEvent, hc, hi, hr] at hp
        | some fm => simp [hi, hr]

/-- Witness for C3: a post with one placement whose URL is absent from
the reply map is not committed. -/
theorem c3_post_persistence_atomic_witness :
    processEvent ⟨"s1", true, some [⟨"p", "u"⟩], some [], true, fun _ => true⟩ = false :=
  (c3_post_persistence_atomic [] []
      ⟨"s1", true, some [⟨"p", "u"⟩], some [], true, fun _ => true⟩).2.2.1
    [⟨"p", "u"⟩] [] rfl rfl ⟨⟨"p", "u"⟩, by simp, by simp⟩

end FanboxArchive
